import Mathlib

/-!
Shallow embedding of `src/presiongpu.py`: a GPU monitor keeping a sliding
60-second window of samples in three parallel deques, rendering them as
bar charts and logging each sample to a CSV file.

Timestamps and percentages are Python floats in the source; they are
modelled as exact rationals (`ℚ`), so the arithmetic identities below are
about the ideal real-number semantics of the expressions in the source.
-/

/-- `VENTANA_SEGUNDOS = 60` (source line 29), the visible window length W. -/
def VENTANA_SEGUNDOS : ℚ := 60

/-- `INTERVALO_MUESTREO = 0.5` (source line 28), the nominal poll interval. -/
def INTERVALO_MUESTREO : ℚ := 1 / 2

/-- `GPU_INDEX = 0` (source line 27). -/
def GPU_INDEX : ℕ := 0

/-- `RUTA_CSV = "gpu_log.csv"` (source line 30). -/
def RUTA_CSV : String := "gpu_log.csv"

/-- The three parallel deques of source lines 46-48: `t_muestras`,
`proc_vals`, `mem_vals`, kept in lockstep by convention. -/
structure Buffer where
  t_muestras : List ℚ
  proc_vals : List ℚ
  mem_vals : List ℚ
  deriving DecidableEq, Repr

/-- The `while` loop of `recorta_antiguas` (source lines 53-56): while
`t_muestras` is nonempty and its head is `< corte`, pop the head of all
three deques.  Popping the parallel deques is modelled by `List.tail`,
which coincides with `popleft` whenever the lockstep length invariant
holds (the only states the program reaches). -/
def recortaGo (corte : ℚ) : List ℚ → List ℚ → List ℚ → Buffer
  | t :: ts, ps, ms =>
    if t < corte then recortaGo corte ts ps.tail ms.tail else ⟨t :: ts, ps, ms⟩
  | [], ps, ms => ⟨[], ps, ms⟩

/-- `recorta_antiguas(ahora_epoch)` (source lines 50-56): drops samples
older than `ahora_epoch - VENTANA_SEGUNDOS` from the head of the buffer. -/
def recorta_antiguas (ahora_epoch : ℚ) (b : Buffer) : Buffer :=
  recortaGo (ahora_epoch - VENTANA_SEGUNDOS) b.t_muestras b.proc_vals b.mem_vals

/-- `color_por_porcentaje(pct)` (source lines 58-61): clamp `pct/100` to
`[0,1]` and return `(t, 1-t, 0)`, a green-to-red gradient. -/
def color_por_porcentaje (pct : ℚ) : ℚ × ℚ × ℚ :=
  let t := max 0 (min 1 (pct / 100))
  (t, 1 - t, 0)

/-- The relative x axis of source lines 108-111:
`x = [t - (ahora - VENTANA_SEGUNDOS) for t in t_muestras]` (the source's
`else` branch returns `[]`, which is what mapping over `[]` yields). -/
def x_positions (ahora : ℚ) (ts : List ℚ) : List ℚ :=
  ts.map (fun t => t - (ahora - VENTANA_SEGUNDOS))

/-- The bar width of source lines 113-118: when at least two x positions
exist, `sum(x[i+1] - x[i] for i in range(len(x)-1)) / (len(x)-1)`, and
otherwise `INTERVALO_MUESTREO`. -/
def width (x : List ℚ) : ℚ :=
  if 2 ≤ x.length then
    ((List.range (x.length - 1)).map (fun i => x.getD (i + 1) 0 - x.getD i 0)).sum
      / ((x.length : ℚ) - 1)
  else INTERVALO_MUESTREO

/-- The spec's wording for the width rule: the arithmetic mean of the
consecutive x-position deltas.  Stated independently of the source's
index-based sum so that the width rule is a genuine comparison. -/
def meanConsecutiveDeltas (x : List ℚ) : ℚ :=
  (List.zipWith (fun a b => b - a) x x.tail).sum / ((x.length : ℚ) - 1)

/-! ### CSV row formatting (source lines 93-98) -/

/-- The `k` low decimal digits of `n`, zero-padded to exactly `k`
characters, most significant first. -/
def natDigitsPad : ℕ → ℕ → List Char
  | 0, _ => []
  | k + 1, n => natDigitsPad k (n / 10) ++ [Nat.digitChar (n % 10)]

/-- Python's fixed-point formatting of a float with `k` decimals, as used
in the CSV rows (source lines 94, 96, 97: the .3f and .2f conversions):
round to `k` decimal digits and print sign, integer part, a point, and
exactly `k` fractional digits.  Floats are modelled as exact rationals, so
rounding is modelled as rounding the scaled rational to an integer. -/
def fmtFixed (k : ℕ) (q : ℚ) : String :=
  let scaled : ℤ := round (q * (10 : ℚ) ^ k)
  let mag : ℕ := scaled.natAbs
  let signChars : List Char := if scaled < 0 then ['-'] else []
  String.mk (signChars ++ (Nat.repr (mag / 10 ^ k)).data ++ '.' :: natDigitsPad k (mag % 10 ^ k))

/-- Number of characters after the last `.` of a string (counted from the
right, stopping at the first `.`). -/
def decimalsAfterDot (s : String) : ℕ :=
  (s.data.reverse.takeWhile (fun c => c != '.')).length

/-- Gregorian calendar date from a day count relative to 1970-01-01
(standard civil-from-days algorithm), used to model the standard
library's date rendering. -/
def civilFromDays (z0 : ℤ) : ℤ × ℤ × ℤ :=
  let z := z0 + 719468
  let era := z.fdiv 146097
  let doe := z - era * 146097
  let yoe := (doe - doe.fdiv 1460 + doe.fdiv 36524 - doe.fdiv 146096).fdiv 365
  let y := yoe + era * 400
  let doy := doe - (365 * yoe + yoe.fdiv 4 - yoe.fdiv 100)
  let mp := (5 * doy + 2).fdiv 153
  let d := doy - (153 * mp + 2).fdiv 5 + 1
  let m := mp + (if mp < 10 then 3 else -9)
  (y + (if m ≤ 2 then 1 else 0), m, d)

/-- Two-digit zero padding for date/time fields. -/
def pad2 (n : ℤ) : String :=
  if n < 10 then "0" ++ toString n else toString n

/-- ISO-8601-like rendering "YYYY-MM-DD HH:MM:SS" of a whole number of
seconds since the epoch. -/
def fechaOfSeconds (s : ℤ) : String :=
  let days := s.fdiv 86400
  let sod := s - 86400 * days
  let h := sod.fdiv 3600
  let mi := (sod - 3600 * h).fdiv 60
  let sec := sod - 3600 * h - 60 * mi
  match civilFromDays days with
  | (y, mo, d) =>
    toString y ++ "-" ++ pad2 mo ++ "-" ++ pad2 d ++ " "
      ++ pad2 h ++ ":" ++ pad2 mi ++ ":" ++ pad2 sec

/-- Modelled from the spec: the `fecha_completa` column (source line 95)
is produced by the Python standard library's `datetime.fromtimestamp`
followed by `isoformat` at second precision — library code outside this
repository, described by the spec as a "local ISO-8601-like timestamp,
second precision".  Modelled as the Gregorian rendering of the
whole-second part of the epoch, shifted by a fixed local offset `tz`. -/
def fecha_completa (tz : ℤ) (epoch : ℚ) : String :=
  fechaOfSeconds (⌊epoch⌋ + tz)

/-- The CSV header row (source line 37). -/
def header : List String :=
  ["epoch", "fecha_completa", "carga_procesador", "carga_memoria"]

/-- One CSV data row (source lines 93-98): epoch with 3 decimals, the
date string, and the two percentages with 2 decimals. -/
def csvRow (tz : ℤ) (ahora carga_proc carga_mem : ℚ) : List String :=
  [fmtFixed 3 ahora, fecha_completa tz ahora, fmtFixed 2 carga_proc, fmtFixed 2 carga_mem]

/-- CSV initialization (source lines 33-38): the file is opened in append
mode; the header row is written exactly when the file did not already
exist (`nuevo`).  The file is modelled as the list of its rows, `none`
standing for a missing file. -/
def initCsv (existing : Option (List (List String))) : List (List String) :=
  match existing with
  | none => [header]
  | some rows => rows

/-- One reading of the tick body (source lines 84-90): the wall-clock
time `ahora` and the two GPU loads. -/
structure Reading where
  ahora : ℚ
  carga_proc : ℚ
  carga_mem : ℚ
  deriving DecidableEq, Repr

/-- Appending one data row per reading to a CSV file state. -/
def escribeMuestras (tz : ℤ) (file : List (List String)) (rs : List Reading) :
    List (List String) :=
  file ++ rs.map (fun r => csvRow tz r.ahora r.carga_proc r.carga_mem)

/-! ### The poll loop (source lines 82-150) -/

/-- A failure of the NVML query on one tick (source lines 87-89): the
exception raised by the driver.  Its payload is irrelevant here. -/
structure QueryError where
  code : ℕ
  deriving DecidableEq, Repr

/-- The mutable program state the loop touches: the three parallel deques
and the CSV file contents. -/
structure LoopState where
  buf : Buffer
  csv : List (List String)
  deriving DecidableEq, Repr

/-- Appending a reading to the three parallel deques
(source lines 102-104). -/
def appendMuestra (b : Buffer) (r : Reading) : Buffer :=
  ⟨b.t_muestras ++ [r.ahora], b.proc_vals ++ [r.carga_proc], b.mem_vals ++ [r.carga_mem]⟩

/-- The write part of one successful tick, in source order: append the
CSV row (lines 93-99), append to the buffers (lines 102-104), evict
(line 105).  Rendering (lines 107-144) touches no modelled state. -/
def tickOk (tz : ℤ) (st : LoopState) (r : Reading) : LoopState :=
  ⟨recorta_antiguas r.ahora (appendMuestra st.buf r),
   st.csv ++ [csvRow tz r.ahora r.carga_proc r.carga_mem]⟩

/-- One tick of the `while True` loop (source lines 83-144).  The NVML
read (lines 87-89) strictly precedes every write of the tick, so a
failing read raises before any modelled state changed: the state is
returned unchanged together with the error, which the `try` of line 82
does not catch (only `KeyboardInterrupt` is). -/
def tick (tz : ℤ) (st : LoopState) (lectura : Except QueryError Reading) :
    LoopState × Option QueryError :=
  match lectura with
  | .error e => (st, some e)
  | .ok r => (tickOk tz st r, none)

/-- The loop: run ticks on successive readings until the reading list is
exhausted (still running, `none`) or a tick raises (the error propagates
out of the loop and the loop terminates, remaining readings never
polled). -/
def runLoop (tz : ℤ) : LoopState → List (Except QueryError Reading) →
    LoopState × Option QueryError
  | st, [] => (st, none)
  | st, l :: ls =>
    match tick tz st l with
    | (st1, none) => runLoop tz st1 ls
    | (st1, some e) => (st1, some e)

/-- The two buffer operations of the spec's lockstep claim. -/
inductive BufOp where
  | insert (r : Reading)
  | evict (ahora : ℚ)
  deriving DecidableEq, Repr

/-- Applying one buffer operation. -/
def applyOp (b : Buffer) : BufOp → Buffer
  | .insert r => appendMuestra b r
  | .evict ahora => recorta_antiguas ahora b

/-- Applying a sequence of buffer operations. -/
def applyOps (b : Buffer) (ops : List BufOp) : Buffer :=
  ops.foldl applyOp b

/-- The lockstep invariant: the three parallel deques have equal
lengths. -/
def lockstep (b : Buffer) : Prop :=
  b.proc_vals.length = b.t_muestras.length ∧ b.mem_vals.length = b.t_muestras.length

/-! ### Helper lemmas about the buffer and geometry -/

lemma recortaGo_t_muestras (corte : ℚ) (ts ps ms : List ℚ) :
    (recortaGo corte ts ps ms).t_muestras
      = ts.dropWhile (fun t => decide (t < corte)) := by
  induction ts generalizing ps ms with
  | nil => simp [recortaGo]
  | cons t ts ih =>
    by_cases h : t < corte
    · simp [recortaGo, h, ih]
    · simp [recortaGo, h]

lemma dropWhile_lt_eq_filter_ge (c : ℚ) (ts : List ℚ) (hs : ts.Sorted (· ≤ ·)) :
    ts.dropWhile (fun t => decide (t < c)) = ts.filter (fun t => decide (c ≤ t)) := by
  induction ts with
  | nil => simp
  | cons t ts ih =>
    rw [List.sorted_cons] at hs
    by_cases h : t < c
    · have h2 : ¬ (c ≤ t) := not_le.mpr h
      simp [h, h2, ih hs.2]
    · have hct : c ≤ t := not_lt.mp h
      have hall : ∀ b ∈ ts, c ≤ b := fun b hb => le_trans hct (hs.1 b hb)
      simp only [List.dropWhile_cons, List.filter_cons, decide_eq_true_eq, h,
        if_neg, hct, if_pos, decide_True]
      simp only [if_false]
      rw [List.filter_eq_self.mpr (fun b hb => decide_eq_true (hall b hb))]

lemma mem_recorta_ge (ahora : ℚ) (b : Buffer)
    (hs : b.t_muestras.Sorted (· ≤ ·)) :
    ∀ t ∈ (recorta_antiguas ahora b).t_muestras, ahora - VENTANA_SEGUNDOS ≤ t := by
  intro t ht
  rw [recorta_antiguas, recortaGo_t_muestras,
    dropWhile_lt_eq_filter_ge _ _ hs] at ht
  exact of_decide_eq_true (List.mem_filter.mp ht).2

lemma recorta_subset (ahora : ℚ) (b : Buffer) :
    ∀ t ∈ (recorta_antiguas ahora b).t_muestras, t ∈ b.t_muestras := by
  intro t ht
  rw [recorta_antiguas, recortaGo_t_muestras] at ht
  exact (List.dropWhile_sublist _).subset ht

lemma getD_map_of_lt (f : ℚ → ℚ) (l : List ℚ) (i : ℕ) (h : i < l.length) :
    (l.map f).getD i 0 = f (l.getD i 0) := by
  induction l generalizing i with
  | nil => simp at h
  | cons a l ih =>
    cases i with
    | zero => simp
    | succ i => simpa using ih i (by simpa using h)

lemma getD_arith (c d : ℚ) (n i : ℕ) (h : i < n) :
    ((List.range n).map (fun j : ℕ => c + (j : ℚ) * d)).getD i 0 = c + (i : ℚ) * d := by
  have h1 : i < ((List.range n).map (fun j : ℕ => c + (j : ℚ) * d)).length := by
    simpa using h
  rw [List.getD_eq_getElem _ _ h1, List.getElem_map, List.getElem_range]

lemma sum_range_deltas_eq_zipWith (x : List ℚ) :
    ((List.range (x.length - 1)).map (fun i => x.getD (i + 1) 0 - x.getD i 0)).sum
      = (List.zipWith (fun a b => b - a) x x.tail).sum := by
  induction x with
  | nil => simp
  | cons a x ih =>
    cases x with
    | nil => simp
    | cons b x' =>
      have h1 : (a :: b :: x').length - 1 = x'.length + 1 := by simp
      rw [h1, List.range_succ_eq_map, List.map_cons, List.sum_cons, List.map_map]
      have h2 : List.map
          ((fun i => (a :: b :: x').getD (i + 1) 0 - (a :: b :: x').getD i 0) ∘ Nat.succ)
          (List.range x'.length)
          = List.map (fun i => (b :: x').getD (i + 1) 0 - (b :: x').getD i 0)
            (List.range x'.length) := by
        refine List.map_congr_left (fun i _ => ?_)
        simp [Function.comp, List.getD_cons_succ]
      have h3 : (b :: x').length - 1 = x'.length := by simp
      rw [h2]
      rw [h3] at ih
      rw [ih]
      simp [List.zipWith_cons_cons]

lemma width_eq_mean (x : List ℚ) (h : 2 ≤ x.length) :
    width x = meanConsecutiveDeltas x := by
  rw [width, if_pos h, meanConsecutiveDeltas, sum_range_deltas_eq_zipWith]

lemma x_positions_arith (ahora t0 d : ℚ) (n : ℕ) :
    x_positions ahora ((List.range n).map (fun j : ℕ => t0 + (j : ℚ) * d))
      = (List.range n).map (fun j : ℕ => (t0 - (ahora - VENTANA_SEGUNDOS)) + (j : ℚ) * d) := by
  rw [x_positions, List.map_map]
  refine List.map_congr_left (fun j _ => ?_)
  simp only [Function.comp]
  ring

lemma width_arith (c d : ℚ) (n : ℕ) (hn : 2 ≤ n) :
    width ((List.range n).map (fun j : ℕ => c + (j : ℚ) * d)) = d := by
  have hlen : ((List.range n).map (fun j : ℕ => c + (j : ℚ) * d)).length = n := by simp
  rw [width, hlen, if_pos hn]
  have hterms : (List.range (n - 1)).map
      (fun i => ((List.range n).map (fun j : ℕ => c + (j : ℚ) * d)).getD (i + 1) 0
        - ((List.range n).map (fun j : ℕ => c + (j : ℚ) * d)).getD i 0)
      = (List.range (n - 1)).map (fun _ => d) := by
    refine List.map_congr_left (fun i hi => ?_)
    have hi1 : i < n - 1 := List.mem_range.mp hi
    rw [getD_arith c d n (i + 1) (by omega), getD_arith c d n i (by omega)]
    push_cast
    ring
  rw [hterms, List.map_const', List.sum_replicate, List.length_range,
    nsmul_eq_mul]
  have hne : ((n : ℚ) - 1) ≠ 0 := by
    have h2 : (2 : ℚ) ≤ (n : ℚ) := by exact_mod_cast hn
    linarith
  have hcast : ((n - 1 : ℕ) : ℚ) = (n : ℚ) - 1 := by
    have h1 : 1 ≤ n := by omega
    push_cast [h1]
    ring
  rw [hcast, mul_comm, mul_div_assoc, div_self hne, mul_one]

/-! ### Helper lemmas about CSV formatting -/

lemma natDigitsPad_length (k n : ℕ) : (natDigitsPad k n).length = k := by
  induction k generalizing n with
  | zero => rfl
  | succ k ih => simp [natDigitsPad, ih]

lemma digitChar_lt_ten_ne_dot : ∀ r : ℕ, r < 10 → Nat.digitChar r ≠ '.' := by decide

lemma natDigitsPad_ne_dot (k n : ℕ) : ∀ c ∈ natDigitsPad k n, c ≠ '.' := by
  induction k generalizing n with
  | zero => intro c hc; simp [natDigitsPad] at hc
  | succ k ih =>
    intro c hc
    rw [natDigitsPad, List.mem_append] at hc
    rcases hc with hc | hc
    · exact ih (n / 10) c hc
    · rw [List.mem_singleton] at hc
      subst hc
      exact digitChar_lt_ten_ne_dot (n % 10) (Nat.mod_lt n (by omega))

lemma takeWhile_ne_dot_append (F A : List Char) (hF : ∀ c ∈ F, c ≠ '.') :
    (F ++ '.' :: A).takeWhile (fun c => c != '.') = F := by
  induction F with
  | nil => simp [List.takeWhile_cons]
  | cons c F ih =>
    have hc : (c != '.') = true := bne_iff_ne.mpr (hF c (by simp))
    simp only [List.cons_append, List.takeWhile_cons, hc, if_true]
    rw [ih (fun x hx => hF x (by simp [hx]))]

lemma decimalsAfterDot_mk (A F : List Char) (hF : ∀ c ∈ F, c ≠ '.') :
    decimalsAfterDot (String.mk (A ++ '.' :: F)) = F.length := by
  rw [decimalsAfterDot]
  show ((A ++ '.' :: F).reverse.takeWhile (fun c => c != '.')).length = F.length
  have hrev : (A ++ '.' :: F).reverse = F.reverse ++ '.' :: A.reverse := by
    rw [List.reverse_append, List.reverse_cons, List.append_assoc]
    simp
  rw [hrev, takeWhile_ne_dot_append _ _ (fun c hc => hF c (List.mem_reverse.mp hc))]
  exact List.length_reverse _

lemma decimalsAfterDot_fmtFixed (k : ℕ) (q : ℚ) :
    decimalsAfterDot (fmtFixed k q) = k := by
  rw [fmtFixed]
  rw [decimalsAfterDot_mk _ _ (natDigitsPad_ne_dot k _)]
  exact natDigitsPad_length k _

lemma dot_mem_fmtFixed (k : ℕ) (q : ℚ) : '.' ∈ (fmtFixed k q).data := by
  rw [fmtFixed]
  exact List.mem_append_right _ (List.mem_cons_self _ _)

lemma csvRow_ne_header (tz : ℤ) (a p m : ℚ) : csvRow tz a p m ≠ header := by
  intro h
  have h0 : fmtFixed 3 a = "epoch" := by
    have := congrArg (fun l => l.getD 0 "") h
    simpa [csvRow, header] using this
  have hdot : '.' ∈ ("epoch" : String).data := h0 ▸ dot_mem_fmtFixed 3 a
  simp at hdot

/-! ### Helper lemmas about the loop and lockstep -/

lemma recortaGo_lockstep (corte : ℚ) (ts ps ms : List ℚ)
    (hp : ps.length = ts.length) (hm : ms.length = ts.length) :
    lockstep (recortaGo corte ts ps ms) := by
  induction ts generalizing ps ms with
  | nil => exact ⟨hp, hm⟩
  | cons t ts ih =>
    by_cases h : t < corte
    · rw [recortaGo, if_pos h]
      exact ih ps.tail ms.tail
        (by rw [List.length_tail, hp, List.length_cons, Nat.add_sub_cancel])
        (by rw [List.length_tail, hm, List.length_cons, Nat.add_sub_cancel])
    · rw [recortaGo, if_neg h]
      exact ⟨hp, hm⟩

lemma appendMuestra_lockstep (b : Buffer) (r : Reading) (h : lockstep b) :
    lockstep (appendMuestra b r) := by
  obtain ⟨hp, hm⟩ := h
  constructor <;> simp [appendMuestra, hp, hm]

lemma applyOp_lockstep (b : Buffer) (op : BufOp) (h : lockstep b) :
    lockstep (applyOp b op) := by
  cases op with
  | insert r => exact appendMuestra_lockstep b r h
  | evict ahora => exact recortaGo_lockstep _ _ _ _ h.1 h.2

/-! ### Claim theorems -/

/-- C1: Window invariant — for every `ahora` and every buffer whose
timestamps are non-decreasing, after `recorta_antiguas ahora` every
remaining sample timestamp is at least `ahora - VENTANA_SEGUNDOS`. -/
theorem window_invariant_after_evict (ahora : ℚ) (b : Buffer)
    (hs : b.t_muestras.Sorted (· ≤ ·)) :
    ∀ t ∈ (recorta_antiguas ahora b).t_muestras, ahora - VENTANA_SEGUNDOS ≤ t :=
  mem_recorta_ge ahora b hs

theorem window_invariant_after_evict_witness :
    (([0, 65] : List ℚ).Sorted (· ≤ ·)) ∧ ((65 : ℚ) - VENTANA_SEGUNDOS ≤ 65) := by
  have hs : (([0, 65] : List ℚ)).Sorted (· ≤ ·) := by decide
  refine ⟨hs, window_invariant_after_evict 65 ⟨[0, 65], [1, 2], [3, 4]⟩ hs 65 ?_⟩
  norm_num [recorta_antiguas, recortaGo, VENTANA_SEGUNDOS]

/-- C2: Eviction exactness — on a buffer with non-decreasing timestamps,
eviction keeps exactly the timestamps `≥ ahora - VENTANA_SEGUNDOS`
(so one exactly at the cutoff is retained); in particular samples at
t=0 and t=65 evicted at now=65 leave only the t=65 sample. -/
theorem evict_exactness (ahora : ℚ) (b : Buffer)
    (hs : b.t_muestras.Sorted (· ≤ ·)) :
    (recorta_antiguas ahora b).t_muestras
      = b.t_muestras.filter (fun t => decide (ahora - VENTANA_SEGUNDOS ≤ t))
    ∧ recorta_antiguas 65 ⟨[0, 65], [10, 20], [30, 40]⟩ = ⟨[65], [20], [40]⟩ := by
  constructor
  · rw [recorta_antiguas, recortaGo_t_muestras, dropWhile_lt_eq_filter_ge _ _ hs]
  · norm_num [recorta_antiguas, recortaGo, VENTANA_SEGUNDOS]

theorem evict_exactness_witness :
    (([0, 65] : List ℚ).Sorted (· ≤ ·))
    ∧ (recorta_antiguas 65 ⟨[0, 65], [10, 20], [30, 40]⟩).t_muestras
        = ([0, 65] : List ℚ).filter (fun t => decide ((65 : ℚ) - VENTANA_SEGUNDOS ≤ t)) := by
  have hs : (([0, 65] : List ℚ)).Sorted (· ≤ ·) := by decide
  exact ⟨hs, (evict_exactness 65 ⟨[0, 65], [10, 20], [30, 40]⟩ hs).1⟩

/-- C3: Render-geometry x positions — `x_positions` subtracts
`ahora - VENTANA_SEGUNDOS` from each timestamp pointwise, and after
eviction on a non-decreasing buffer whose timestamps are `≤ ahora`, every
x position lies in `[0, VENTANA_SEGUNDOS]`. -/
theorem render_x_positions_spec (ahora : ℚ) :
    (∀ (ts : List ℚ) (i : ℕ), i < ts.length →
      (x_positions ahora ts).getD i 0 = ts.getD i 0 - (ahora - VENTANA_SEGUNDOS))
    ∧ ∀ b : Buffer, b.t_muestras.Sorted (· ≤ ·) →
        (∀ t ∈ b.t_muestras, t ≤ ahora) →
        ∀ xv ∈ x_positions ahora (recorta_antiguas ahora b).t_muestras,
          0 ≤ xv ∧ xv ≤ VENTANA_SEGUNDOS := by
  constructor
  · intro ts i h
    exact getD_map_of_lt _ ts i h
  · intro b hs hle xv hxv
    rw [x_positions, List.mem_map] at hxv
    obtain ⟨t, ht, rfl⟩ := hxv
    have h1 : ahora - VENTANA_SEGUNDOS ≤ t := mem_recorta_ge ahora b hs t ht
    have h2 : t ≤ ahora := hle t (recorta_subset ahora b t ht)
    constructor <;> linarith

theorem render_x_positions_spec_witness :
    ((0 : ℕ) < ([5] : List ℚ).length)
    ∧ (x_positions 65 [5]).getD 0 0 = (5 : ℚ) - (65 - VENTANA_SEGUNDOS)
    ∧ (0 ≤ (46 : ℚ) ∧ (46 : ℚ) ≤ VENTANA_SEGUNDOS) := by
  refine ⟨by decide, (render_x_positions_spec 65).1 [5] 0 (by decide), ?_⟩
  refine (render_x_positions_spec 65).2 ⟨[51], [1], [1]⟩ (by decide) ?_ 46 ?_
  · intro t ht
    rw [List.mem_singleton] at ht
    rw [ht]
    norm_num
  · norm_num [x_positions, recorta_antiguas, recortaGo, VENTANA_SEGUNDOS]

/-- C4: Bar-width rule and degenerate cases — with at least two samples
the width is the arithmetic mean of consecutive x-position deltas; an
empty buffer yields empty geometry with default width; a single sample
yields one x position with default width. -/
theorem width_rule_and_degenerate_cases (x : List ℚ) :
    (2 ≤ x.length → width x = meanConsecutiveDeltas x)
    ∧ (∀ ahora : ℚ, x_positions ahora [] = [] ∧ width ([] : List ℚ) = INTERVALO_MUESTREO)
    ∧ (∀ ahora t0 : ℚ, (x_positions ahora [t0]).length = 1
        ∧ width [t0] = INTERVALO_MUESTREO) :=
  ⟨width_eq_mean x, fun _ => ⟨rfl, rfl⟩, fun _ _ => ⟨rfl, rfl⟩⟩

theorem width_rule_and_degenerate_cases_witness :
    (2 ≤ ([3, 7] : List ℚ).length) ∧ width [3, 7] = meanConsecutiveDeltas [3, 7] :=
  ⟨by decide, (width_rule_and_degenerate_cases [3, 7]).1 (by decide)⟩

lemma dropWhile_eq_self_of_head (p : ℚ → Bool) (ts : List ℚ)
    (h : ∀ t ∈ ts, p t = false) : ts.dropWhile p = ts := by
  cases ts with
  | nil => rfl
  | cons t ts => simp [List.dropWhile_cons, h t (by simp)]

/-- C5 counterexample: with samples at t = 0,...,59 and eviction at
now = 59 (W = 60), the computed x positions are NOT 0..59 — the first
x position is 1, not 0, because `x[i] = t_i - (59 - 60) = t_i + 1`. -/
theorem full_window_scenario_counterexample :
    x_positions 59 ((List.range 60).map (fun i : ℕ => (i : ℚ)))
      ≠ (List.range 60).map (fun i : ℕ => (i : ℚ))
    ∧ (x_positions 59 ((List.range 60).map (fun i : ℕ => (i : ℚ)))).getD 0 0 = 1 := by
  have hR : ((List.range 60).map (fun i : ℕ => (i : ℚ))).getD 0 0 = 0 := by
    rw [List.getD_eq_getElem _ _ (by simp), List.getElem_map, List.getElem_range]
    simp
  have hL : (x_positions 59 ((List.range 60).map (fun i : ℕ => (i : ℚ)))).getD 0 0 = 1 := by
    rw [x_positions, getD_map_of_lt _ _ 0 (by simp), hR]
    norm_num [VENTANA_SEGUNDOS]
  constructor
  · intro h
    have h2 : (x_positions 59 ((List.range 60).map (fun i : ℕ => (i : ℚ)))).getD 0 0
        = ((List.range 60).map (fun i : ℕ => (i : ℚ))).getD 0 0 := by rw [h]
    rw [hL, hR] at h2
    exact one_ne_zero h2
  · exact hL

/-- C5 (amended): with samples at t = 0,...,59 (interval 1, W = 60) and
eviction at now = 59, all 60 samples are retained, the x positions are
1..60 (not 0..59), and the width is 1. -/
theorem full_window_scenario_amended :
    (recorta_antiguas 59 ⟨(List.range 60).map (fun i : ℕ => (i : ℚ)),
        List.replicate 60 0, List.replicate 60 0⟩).t_muestras
      = (List.range 60).map (fun i : ℕ => (i : ℚ))
    ∧ (recorta_antiguas 59 ⟨(List.range 60).map (fun i : ℕ => (i : ℚ)),
        List.replicate 60 0, List.replicate 60 0⟩).t_muestras.length = 60
    ∧ x_positions 59 ((List.range 60).map (fun i : ℕ => (i : ℚ)))
        = (List.range 60).map (fun i : ℕ => (i : ℚ) + 1)
    ∧ width (x_positions 59 ((List.range 60).map (fun i : ℕ => (i : ℚ)))) = 1 := by
  have h1 : ((List.range 60).map (fun i : ℕ => (i : ℚ)))
      = (List.range 60).map (fun i : ℕ => 0 + (i : ℚ) * 1) := by
    refine List.map_congr_left fun i _ => by ring
  have hts : (recorta_antiguas 59 ⟨(List.range 60).map (fun i : ℕ => (i : ℚ)),
      List.replicate 60 0, List.replicate 60 0⟩).t_muestras
      = (List.range 60).map (fun i : ℕ => (i : ℚ)) := by
    rw [recorta_antiguas, recortaGo_t_muestras]
    apply dropWhile_eq_self_of_head
    intro t ht
    rw [List.mem_map] at ht
    obtain ⟨i, _, rfl⟩ := ht
    rw [decide_eq_false_iff_not, not_lt]
    have h0 : (0 : ℚ) ≤ (i : ℚ) := Nat.cast_nonneg i
    have h59 : (59 : ℚ) - VENTANA_SEGUNDOS = -1 := by norm_num [VENTANA_SEGUNDOS]
    rw [h59]
    linarith
  have hx : x_positions 59 ((List.range 60).map (fun i : ℕ => (i : ℚ)))
      = (List.range 60).map (fun i : ℕ => (i : ℚ) + 1) := by
    rw [h1, x_positions_arith]
    refine List.map_congr_left fun i _ => ?_
    norm_num [VENTANA_SEGUNDOS]
    ring
  refine ⟨hts, by rw [hts]; simp, hx, ?_⟩
  rw [h1, x_positions_arith]
  exact width_arith _ 1 60 (by norm_num)

/-- C6: No-gap geometry — for regular sampling `t_j = t0 + j·d` with
`d > 0` and at least two samples, consecutive x positions differ by
exactly `d` and the computed width equals `d`. -/
theorem no_gap_geometry (ahora t0 d : ℚ) (n : ℕ) (_hd : 0 < d) (hn : 2 ≤ n) :
    (∀ i : ℕ, i + 1 < n →
      (x_positions ahora ((List.range n).map (fun j : ℕ => t0 + (j : ℚ) * d))).getD (i + 1) 0
        - (x_positions ahora ((List.range n).map (fun j : ℕ => t0 + (j : ℚ) * d))).getD i 0
        = d)
    ∧ width (x_positions ahora ((List.range n).map (fun j : ℕ => t0 + (j : ℚ) * d))) = d := by
  rw [x_positions_arith]
  constructor
  · intro i hi
    rw [getD_arith _ _ n (i + 1) hi, getD_arith _ _ n i (by omega)]
    push_cast
    ring
  · exact width_arith _ d n hn

theorem no_gap_geometry_witness :
    (0 < (1 : ℚ)) ∧ (2 ≤ 2)
    ∧ width (x_positions 65 ((List.range 2).map (fun j : ℕ => (0 : ℚ) + (j : ℚ) * 1))) = 1 :=
  ⟨by norm_num, by norm_num, (no_gap_geometry 65 0 1 2 (by norm_num) (by norm_num)).2⟩

/-- C7: ColorMapper correctness — pure green at 0, pure red at 100,
redness non-decreasing and greenness non-increasing on [0,100], and
inputs outside [0,100] saturate to the nearest endpoint color. -/
theorem color_mapper_correct :
    color_por_porcentaje 0 = (0, 1, 0)
    ∧ color_por_porcentaje 100 = (1, 0, 0)
    ∧ (∀ a b : ℚ, 0 ≤ a → a < b → b ≤ 100 →
        (color_por_porcentaje a).1 ≤ (color_por_porcentaje b).1
        ∧ (color_por_porcentaje b).2.1 ≤ (color_por_porcentaje a).2.1)
    ∧ (∀ pct : ℚ, pct < 0 → color_por_porcentaje pct = color_por_porcentaje 0)
    ∧ (∀ pct : ℚ, 100 < pct → color_por_porcentaje pct = color_por_porcentaje 100) := by
  have c0 : color_por_porcentaje 0 = (0, 1, 0) := by
    show (max 0 (min 1 ((0 : ℚ) / 100)), 1 - max 0 (min 1 ((0 : ℚ) / 100)), (0 : ℚ))
      = (0, 1, 0)
    norm_num
  have c100 : color_por_porcentaje 100 = (1, 0, 0) := by
    show (max 0 (min 1 ((100 : ℚ) / 100)), 1 - max 0 (min 1 ((100 : ℚ) / 100)), (0 : ℚ))
      = (1, 0, 0)
    norm_num
  have clamp_mono : ∀ a b : ℚ, a ≤ b →
      max 0 (min 1 (a / 100)) ≤ max 0 (min 1 (b / 100)) := fun a b h =>
    max_le_max le_rfl (min_le_min le_rfl
      ((div_le_div_right (by norm_num : (0 : ℚ) < 100)).mpr h))
  refine ⟨c0, c100, ?_, ?_, ?_⟩
  · intro a b _ hab _
    have h := clamp_mono a b hab.le
    exact ⟨h, sub_le_sub_left h 1⟩
  · intro pct h
    have h1 : pct / 100 < 0 := div_neg_of_neg_of_pos h (by norm_num)
    have hc : max 0 (min 1 (pct / 100)) = 0 := by
      rw [min_eq_right (by linarith), max_eq_left h1.le]
    rw [c0]
    show (max 0 (min 1 (pct / 100)), 1 - max 0 (min 1 (pct / 100)), (0 : ℚ)) = (0, 1, 0)
    rw [hc]
    norm_num
  · intro pct h
    have h1 : (1 : ℚ) < pct / 100 := by
      rw [lt_div_iff (by norm_num : (0 : ℚ) < 100)]
      linarith
    have hc : max 0 (min 1 (pct / 100)) = 1 := by
      rw [min_eq_left h1.le]
      exact max_eq_right (by norm_num)
    rw [c100]
    show (max 0 (min 1 (pct / 100)), 1 - max 0 (min 1 (pct / 100)), (0 : ℚ)) = (1, 0, 0)
    rw [hc]
    norm_num

theorem color_mapper_correct_witness :
    ((0 : ℚ) ≤ 10) ∧ ((10 : ℚ) < 90) ∧ ((90 : ℚ) ≤ 100)
    ∧ (color_por_porcentaje 10).1 ≤ (color_por_porcentaje 90).1
    ∧ color_por_porcentaje (-10) = color_por_porcentaje 0
    ∧ color_por_porcentaje 150 = color_por_porcentaje 100 := by
  refine ⟨by norm_num, by norm_num, by norm_num, ?_, ?_, ?_⟩
  · exact (color_mapper_correct.2.2.1 10 90 (by norm_num) (by norm_num) (by norm_num)).1
  · exact color_mapper_correct.2.2.2.1 (-10) (by norm_num)
  · exact color_mapper_correct.2.2.2.2 150 (by norm_num)

/-- C8: Query-failure fatality and atomicity — the NVML read opens every
tick, so when it fails the error propagates out of the loop (the
remaining readings are never processed) and the state is exactly the one
left by the preceding successful ticks: the failing tick changes neither
the buffer nor the CSV. -/
theorem query_failure_fatal (tz : ℤ) (e : QueryError) (oks : List Reading)
    (st : LoopState) (post : List (Except QueryError Reading)) :
    runLoop tz st (oks.map Except.ok ++ Except.error e :: post)
      = (oks.foldl (tickOk tz) st, some e)
    ∧ tick tz st (Except.error e) = (st, some e) := by
  constructor
  · induction oks generalizing st with
    | nil => rfl
    | cons r oks ih =>
      simpa [runLoop, tick, List.foldl_cons] using ih (tickOk tz st r)
  · rfl

/-- C9: CSV row schema — on a fresh file the header is written first and
exactly once, N samples yield N+1 rows, appending to an existing file
adds no header, the epoch cell has exactly 3 decimals, the two load
cells exactly 2 decimals each, and the date cell depends only on the
whole-second part of the epoch. -/
theorem csv_row_schema (tz : ℤ) (rs : List Reading) :
    (escribeMuestras tz (initCsv none) rs).length = rs.length + 1
    ∧ (escribeMuestras tz (initCsv none) rs).count header = 1
    ∧ (∀ prev, escribeMuestras tz (initCsv (some prev)) rs
        = prev ++ rs.map (fun r => csvRow tz r.ahora r.carga_proc r.carga_mem))
    ∧ (∀ a p m : ℚ,
        decimalsAfterDot ((csvRow tz a p m).getD 0 "") = 3
        ∧ decimalsAfterDot ((csvRow tz a p m).getD 2 "") = 2
        ∧ decimalsAfterDot ((csvRow tz a p m).getD 3 "") = 2
        ∧ '.' ∈ ((csvRow tz a p m).getD 0 "").data
        ∧ ∀ a2 : ℚ, ⌊a2⌋ = ⌊a⌋ →
            (csvRow tz a2 p m).getD 1 "" = (csvRow tz a p m).getD 1 "") := by
  refine ⟨?_, ?_, fun prev => rfl, fun a p m => ⟨?_, ?_, ?_, ?_, ?_⟩⟩
  · simp [escribeMuestras, initCsv, Nat.add_comm]
  · have h0 : (rs.map (fun r => csvRow tz r.ahora r.carga_proc r.carga_mem)).count header
        = 0 := by
      rw [List.count_eq_zero]
      intro hmem
      obtain ⟨r, _, hr⟩ := List.mem_map.mp hmem
      exact csvRow_ne_header tz r.ahora r.carga_proc r.carga_mem hr
    rw [escribeMuestras, initCsv, List.singleton_append, List.count_cons]
    simp [h0]
  · exact decimalsAfterDot_fmtFixed 3 a
  · exact decimalsAfterDot_fmtFixed 2 p
  · exact decimalsAfterDot_fmtFixed 2 m
  · exact dot_mem_fmtFixed 3 a
  · intro a2 h
    show fecha_completa tz a2 = fecha_completa tz a
    rw [fecha_completa, fecha_completa, h]

theorem csv_row_schema_witness :
    (escribeMuestras 0 (initCsv none) [⟨1, 2, 3⟩]).length = 1 + 1
    ∧ decimalsAfterDot ((csvRow 0 (17 / 10) 42 (147 / 2)).getD 0 "") = 3
    ∧ (⌊(9 / 5 : ℚ)⌋ = ⌊(17 / 10 : ℚ)⌋)
    ∧ (csvRow 0 (9 / 5) 42 (147 / 2)).getD 1 ""
        = (csvRow 0 (17 / 10) 42 (147 / 2)).getD 1 "" := by
  refine ⟨(csv_row_schema 0 [⟨1, 2, 3⟩]).1,
    ((csv_row_schema 0 []).2.2.2 (17 / 10) 42 (147 / 2)).1, by norm_num, ?_⟩
  exact ((csv_row_schema 0 []).2.2.2 (17 / 10) 42 (147 / 2)).2.2.2.2 (9 / 5) (by norm_num)

/-- C10: Parallel-buffer lockstep invariant — insertion appends one
element to each of the three deques and each eviction step pops one from
each, so every sequence of insert and evict operations preserves equal
lengths. -/
theorem parallel_buffer_lockstep (ops : List BufOp) (b : Buffer) (h : lockstep b) :
    lockstep (applyOps b ops) := by
  induction ops generalizing b with
  | nil => exact h
  | cons op ops ih => exact ih (applyOp b op) (applyOp_lockstep b op h)

theorem parallel_buffer_lockstep_witness :
    lockstep (Buffer.mk [] [] [])
    ∧ lockstep (applyOps ⟨[], [], []⟩ [BufOp.insert ⟨1, 2, 3⟩, BufOp.evict 100]) :=
  ⟨⟨rfl, rfl⟩,
    parallel_buffer_lockstep [BufOp.insert ⟨1, 2, 3⟩, BufOp.evict 100] ⟨[], [], []⟩ ⟨rfl, rfl⟩⟩
